import Mathlib

/-!
Verification of the conference-program extraction script (`main.py`).

The script has three stages:
1. an extractor walking the text spans of a PDF and classifying them by
   font name / font size into article fields,
2. a merger coalescing extracted blocks that lack a session label,
3. a writer appending rows to a spreadsheet, one row per (session, author).

The embedding below models the PDF as a list of pages, each page a list of
blocks carrying typed lines of spans; a spreadsheet is a list of rows.
Font sizes are exact rationals (PyMuPDF reports exact double values which the
script compares with Python equality; all constants involved are dyadic, so
rational equality models the comparison faithfully).
-/

namespace MainPy

/-- A text span: a run of text with one font and one size
(fields of the PyMuPDF span dictionary used by the script). -/
structure Span where
  font : String
  size : ℚ
  text : String
deriving DecidableEq

/-- A line of a block: its list of spans. -/
structure Line where
  spans : List Span
deriving DecidableEq

/-- A layout block: its type tag (0 = text) and its lines. -/
structure Block where
  type : Nat
  lines : List Line
deriving DecidableEq

/-- A page is the list of blocks reported for it. -/
abbrev Page := List Block

/-- Article record built per block (the dictionary literal at
`main.py` lines 40-46). -/
structure Article where
  authors : List String
  affiliations : List String
  session : String
  title : String
  abstract : String
deriving DecidableEq

/-- The fresh empty article record each block starts from. -/
def emptyArticle : Article :=
  { authors := [], affiliations := [], session := "", title := "", abstract := "" }

/-- Font size constant for session paragraphs (`main.py` line 8):
the literal 9.5, written as a normalised rational so that the kernel can
evaluate comparisons against it. -/
def FONT_SIZE_PARAGRAPH : ℚ := mkRat 95 10

/-- Font size constant for titles (`main.py` line 9). -/
def FONT_SIZE_TITLE : ℚ := 9

/-- Font size constant for authors (`main.py` line 10). -/
def FONT_SIZE_AUTHORS : ℚ := 9

/-- Font size constant for affiliations (`main.py` line 11). -/
def FONT_SIZE_AFFILIATIONS : ℚ := 8

/-- Font size constant for abstract text (`main.py` line 12):
the literal 9.134002685546875, written as a rational. -/
def FONT_SIZE_ABSTRACT : ℚ := mkRat 9134002685546875 1000000000000000

/-- The five semantic roles a span can be assigned. -/
inductive Role where
  | paragraph
  | title
  | authors
  | affiliations
  | abstract
deriving DecidableEq

/-- Span classification, the if/elif chain of `main.py` lines 50-69:
session paragraphs, titles, authors and affiliations are matched on font
name and size; the abstract rule tests the size only. -/
def classifySpan (s : Span) : Option Role :=
  if s.font = "TimesNewRomanPS-BoldItal" ∧ s.size = FONT_SIZE_PARAGRAPH then
    some Role.paragraph
  else if s.font = "TimesNewRomanPS-BoldMT" ∧ s.size = FONT_SIZE_TITLE then
    some Role.title
  else if s.font = "TimesNewRomanPS-ItalicMT" ∧ s.size = FONT_SIZE_AUTHORS then
    some Role.authors
  else if s.font = "TimesNewRomanPS-ItalicMT" ∧ s.size = FONT_SIZE_AFFILIATIONS then
    some Role.affiliations
  else if s.size = FONT_SIZE_ABSTRACT then
    some Role.abstract
  else
    none

/-- Effect of one span on the article record of its block
(`main.py` lines 60-69). -/
def processSpan (art : Article) (s : Span) : Article :=
  match classifySpan s with
  | some Role.paragraph => { art with session := art.session ++ s.text }
  | some Role.title => { art with title := art.title ++ s.text }
  | some Role.authors => { art with authors := art.authors ++ [s.text] }
  | some Role.affiliations => { art with affiliations := art.affiliations ++ [s.text] }
  | some Role.abstract => { art with abstract := art.abstract ++ s.text }
  | none => art

/-- The article record a block builds from its spans
(`main.py` lines 48-69). -/
def buildArticle (b : Block) : Article :=
  b.lines.foldl (fun a l => l.spans.foldl processSpan a) emptyArticle

/-- Python truthiness test of `main.py` lines 72-73: the record has at
least one non-empty field. -/
def articleNonEmpty (a : Article) : Bool :=
  a.session != "" || a.title != "" || a.authors != [] ||
    a.affiliations != [] || a.abstract != ""

/-- In-place merge of the fields of a continuation block into a previous
record (`main.py` lines 76-78; the same assignments reappear at
lines 105-107 of `merge_information_blocks`). Only title, affiliations
and abstract are merged; session and authors are kept. -/
def mergeFields (dst src : Article) : Article :=
  { dst with
    title := dst.title ++ src.title
    affiliations := dst.affiliations ++ src.affiliations
    abstract := dst.abstract ++ src.abstract }

/-- State of the extractor generator. Python dictionaries are mutable
objects; to track identity the state holds a store of allocated records
(one per processed block) and yields record ids. `previous` is the id of
the record `previous_article` points to. -/
structure ExtractState where
  store : List Article
  yields : List Nat
  previous : Option Nat
deriving DecidableEq

/-- Extractor state before any block is processed (`main.py` line 33). -/
def initExtractState : ExtractState :=
  { store := [], yields := [], previous := none }

/-- Processing of one layout block by the extractor
(`main.py` lines 39-82): build the record from the spans; for a text
block with at least one non-empty field, a record lacking session text is
merged into `previous_article` when one exists (and that very record is
yielded again); otherwise the fresh record is yielded. In all cases
`previous_article` is reassigned to the current record (line 82). -/
def processBlock (st : ExtractState) (b : Block) : ExtractState :=
  let cur := buildArticle b
  let newId := st.store.length
  let store := st.store ++ [cur]
  if b.type = 0 then
    if articleNonEmpty cur then
      if cur.session = "" then
        match st.previous with
        | some pid =>
          let merged := mergeFields (store.getD pid emptyArticle) cur
          { store := store.set pid merged
            yields := st.yields ++ [pid]
            previous := some pid }
        | none =>
          { store := store, yields := st.yields ++ [newId], previous := some newId }
      else
        { store := store, yields := st.yields ++ [newId], previous := some newId }
    else
      { store := store, yields := st.yields, previous := some newId }
  else
    { store := store, yields := st.yields, previous := some newId }

/-- The extractor of `main.py` lines 21-82, run to completion over the
pages from `start_page` (1-based) on, returning its final state. -/
def extract_information_from_pdf (pages : List Page) (start_page : Nat) : ExtractState :=
  (pages.drop (start_page - 1)).foldl (fun st p => p.foldl processBlock st) initExtractState

/-- The sequence of article values produced by listing the yields of the extractor: each yielded id read off from the final store (mutation of a
record after its yield is visible in every earlier occurrence, as for
the mutable dictionaries of Python). -/
def extractedArticles (pages : List Page) (start_page : Nat) : List Article :=
  let st := extract_information_from_pdf pages start_page
  st.yields.map (fun i => st.store.getD i emptyArticle)

/-- One step of `merge_information_blocks` (`main.py` lines 98-107): the
state pairs `current_block` (None before the first record) with the list
`merged_blocks` built so far. A record with a non-empty session closes the
open block and opens a new one; any other record is merged into the open
block. -/
def mergeStep (st : Option Article × List Article) (b : Article) : Option Article × List Article :=
  match st with
  | (none, acc) => (some b, acc)
  | (some cur, acc) =>
    if b.session ≠ "" then (some b, acc ++ [cur])
    else (some (mergeFields cur b), acc)

/-- Final step of the merger (`main.py` lines 109-110): append the open
block to the merged list when one exists. -/
def mergeFinalize (st : Option Article × List Article) : List Article :=
  match st with
  | (none, acc) => acc
  | (some cur, acc) => acc ++ [cur]

/-- The merger of `main.py` lines 85-112: fold the records through
`mergeStep` starting from no open block, then append the final open block
when one exists. -/
def merge_information_blocks (blocks : List Article) : List Article :=
  mergeFinalize (blocks.foldl mergeStep (none, []))

/-- Helper for the specification-level description of the merger: fold a
run of continuation records into a base record. -/
def coalesceRun (b : Article) (run : List Article) : Article :=
  run.foldl mergeFields b

/-- Modelled from the spec: the merger regroups its input by runs — the
first record opens a block, each maximal run of records with an empty
session is coalesced into the preceding block, and each record with a
non-empty session opens a new block. Used to state the amended form of
the one-output-per-session property. -/
def mergeRunsSpec : List Article → List Article
  | [] => []
  | b :: rest =>
    coalesceRun b (rest.takeWhile fun x => x.session = "") ::
      mergeRunsSpec (rest.dropWhile fun x => x.session = "")
termination_by l => l.length
decreasing_by
  simp only [List.length_cons]
  exact Nat.lt_succ_of_le (by
    induction rest with
    | nil => simp
    | cons a t ih =>
      rw [List.dropWhile_cons]
      split
      · exact le_trans ih (Nat.le_succ _)
      · simp)

/-- One when a non-empty input list starts with a session-less record:
the count of the extra leading merged block the merger produces. -/
def leadingBonus : List Article → Nat
  | [] => 0
  | b :: _ => if b.session = "" then 1 else 0

/-- A spreadsheet row with the six columns written by the script. -/
structure Row where
  name : String
  affiliations : String
  session : String
  location : String
  title : String
  abstract : String
deriving DecidableEq

/-- The sheet produced by `create_excel_file_with_headers`
(`main.py` lines 160-175): a single header row. -/
def create_excel_file_with_headers : List Row :=
  [{ name := "Name (incl, titles if any mentioned"
     affiliations := "Affiliations"
     session := "Session name"
     location := "Persons Location"
     title := "Topic Title"
     abstract := "Presentation Abstract" }]

/-- Python `author.startswith(",")`: the first character is a comma. -/
def startsWithComma (s : String) : Bool :=
  match s.data with
  | ',' :: _ => true
  | _ => false

/-- Python slice `author[2:]`: drop the first two characters (an
out-of-range slice yields the empty string, as List.drop does). -/
def dropTwoChars (s : String) : String :=
  String.mk (s.data.drop 2)

/-- Leading-comma strip applied to each author (`main.py` lines 142-143):
when the name starts with a comma the first TWO characters are removed
(whatever the second character is). -/
def stripAuthor (author : String) : String :=
  if startsWithComma author then dropTwoChars author else author

/-- Python membership test `tuple(authors) in existing_authors`
(`main.py` line 138): `existing_authors` only ever holds 2-tuples
`(session, author)`, so the test can succeed only when `authors` has
exactly two elements forming such a pair. -/
def authorsTupleMem (authors : List String) (existing : List (String × String)) : Bool :=
  match authors with
  | [a, b] => (a, b) ∈ existing
  | _ => false

/-- The guard of the `continue` at `main.py` lines 138-139:
`session and tuple(authors) in existing_authors`. -/
def skipBlockCond (existing : List (String × String)) (block : Article) : Bool :=
  block.session != "" && authorsTupleMem block.authors existing

/-- Processing of one author of a block by the writer
(`main.py` lines 141-155): strip the leading-comma artifact, skip the
author if its (session, author) pair was already seen in this call,
otherwise record the pair and append a row at the bottom of the sheet. -/
def saveAuthorsStep (session title abstract : String) (affiliations : List String)
    (st : List (String × String) × List Row) (author : String) :
    List (String × String) × List Row :=
  let author := stripAuthor author
  if (session, author) ∈ st.1 then st
  else
    ((session, author) :: st.1,
      st.2 ++ [{ name := author
                 affiliations := String.intercalate ", " affiliations
                 session := session
                 location := ""
                 title := title
                 abstract := abstract }])

/-- Processing of one record by the writer (`main.py` lines 131-155). -/
def saveBlockStep (st : List (String × String) × List Row) (block : Article) :
    List (String × String) × List Row :=
  if skipBlockCond st.1 block then st
  else block.authors.foldl
    (saveAuthorsStep block.session block.title block.abstract block.affiliations) st

/-- The initial sheet the writer works on (`main.py` lines 123-129):
the existing file, or a fresh one with headers when the path is absent. -/
def initialSheet (file : Option (List Row)) : List Row :=
  match file with
  | none => create_excel_file_with_headers
  | some sheet => sheet

/-- The writer `save_to_excel_file` of `main.py` lines 115-157, returning
the sheet as saved: starts with an empty `existing_authors` set and folds
every record through `saveBlockStep`. -/
def save_to_excel_file (blocks : List Article) (file : Option (List Row)) : List Row :=
  (blocks.foldl saveBlockStep ([], initialSheet file)).2

/-- The entry point of `main.py` lines 178-199 on a given PDF and a
(possibly absent) spreadsheet: extract, merge, save, re-color the header
row (which changes no cell value), then save the same merged records a
second time (line 199). -/
def main_run (pdf : List Page) (start_page : Nat) (file : Option (List Row)) : List Row :=
  let merged := merge_information_blocks (extractedArticles pdf start_page)
  let sheet1 := save_to_excel_file merged file
  save_to_excel_file merged (some sheet1)

/-! ### Concrete inputs and proof-level predicates -/

/-- Invariant of the fold state of the merger: before the first record the
accumulator is empty, every accumulated block past the first has a
non-empty session, and once the accumulator is non-empty the open block
has a non-empty session. -/
def MergeInv (st : Option Article × List Article) : Prop :=
  (st.1 = none → st.2 = []) ∧
  (∀ x ∈ st.2.tail, x.session ≠ "") ∧
  (∀ c, st.1 = some c → st.2 ≠ [] → c.session ≠ "")

/-- Invariant of the fold state of the writer over an initial sheet: the sheet
is the initial one plus appended rows, each appended row has its
(session, name) pair recorded in `existing_authors`, and the appended
rows carry pairwise distinct (session, name) pairs. -/
def SaveInv (sheet0 : List Row) (st : List (String × String) × List Row) : Prop :=
  ∃ app, st.2 = sheet0 ++ app ∧
    (∀ r ∈ app, (r.session, r.name) ∈ st.1) ∧
    app.Pairwise (fun r1 r2 => ¬(r1.session = r2.session ∧ r1.name = r2.name))

/-- A one-page PDF: a yielded session block, then an empty text block
(no span matches, not yielded), then a title-only continuation block. -/
def pdfContinuation : List Page :=
  [[{ type := 0
      lines := [{ spans := [{ font := "TimesNewRomanPS-BoldItal", size := FONT_SIZE_PARAGRAPH,
                              text := "S1" },
                            { font := "TimesNewRomanPS-BoldMT", size := FONT_SIZE_TITLE,
                              text := "T1" }] }] },
    { type := 0, lines := [] },
    { type := 0
      lines := [{ spans := [{ font := "TimesNewRomanPS-BoldMT", size := FONT_SIZE_TITLE,
                              text := "X" }] }] }]]

/-- Extractor state after one yielded block with session "S1". -/
def prevState : ExtractState :=
  { store := [{ authors := [], affiliations := [], session := "S1", title := "T1",
                abstract := "" }]
    yields := [0]
    previous := some 0 }

/-- A title-only continuation block. -/
def contBlock : Block :=
  { type := 0
    lines := [{ spans := [{ font := "TimesNewRomanPS-BoldMT", size := FONT_SIZE_TITLE,
                            text := "X" }] }] }

/-- The two-page synthetic PDF of the end-to-end property: page one holds
one text block with a session span ("Session 1", bold-italic, 9.5), a
title span ("Talk A", bold, 9) and an author span ("Dr. X", italic, 9);
page two is empty. -/
def twoPagePdf : List Page :=
  [[{ type := 0
      lines := [{ spans := [{ font := "TimesNewRomanPS-BoldItal", size := FONT_SIZE_PARAGRAPH,
                              text := "Session 1" },
                            { font := "TimesNewRomanPS-BoldMT", size := FONT_SIZE_TITLE,
                              text := "Talk A" },
                            { font := "TimesNewRomanPS-ItalicMT", size := FONT_SIZE_AUTHORS,
                              text := "Dr. X" }] }] }],
   []]

/-! ### Merger invariants -/

lemma mergeFields_session (dst src : Article) :
    (mergeFields dst src).session = dst.session := rfl

lemma mergeStep_inv {st : Option Article × List Article} (b : Article)
    (h : MergeInv st) : MergeInv (mergeStep st b) := by
  obtain ⟨h1, h2, h3⟩ := h
  obtain ⟨cur?, acc⟩ := st
  cases cur? with
  | none =>
    have hacc : acc = [] := h1 rfl
    subst hacc
    change MergeInv (some b, [])
    exact ⟨fun h => rfl, by simp, fun c _ hne => absurd rfl hne⟩
  | some cur =>
    simp only [mergeStep]
    split
    · refine ⟨fun h => by simp at h, ?_, ?_⟩
      · intro x hx
        cases acc with
        | nil => simp at hx
        | cons a t =>
          simp only [List.cons_append, List.tail_cons] at hx
          rcases List.mem_append.mp hx with hx | hx
          · exact h2 x hx
          · rw [List.mem_singleton.mp hx]
            exact h3 cur rfl (by simp)
      · intro c hc _
        cases hc
        assumption
    · refine ⟨fun h => by simp at h, h2, ?_⟩
      intro c hc hne
      cases hc
      rw [mergeFields_session]
      exact h3 cur rfl hne

lemma merge_fold_inv (blocks : List Article)
    {st : Option Article × List Article} (h : MergeInv st) :
    MergeInv (blocks.foldl mergeStep st) := by
  induction blocks generalizing st with
  | nil => exact h
  | cons b rest ih => exact ih (mergeStep_inv b h)

/-- Every merged block past the first has a non-empty session. -/
lemma merge_tail_session (blocks : List Article) :
    ∀ x ∈ (merge_information_blocks blocks).tail, x.session ≠ "" := by
  have hinv : MergeInv (blocks.foldl mergeStep (none, [])) :=
    merge_fold_inv blocks ⟨fun _ => rfl, by simp, by simp⟩
  obtain ⟨h1, h2, h3⟩ := hinv
  unfold merge_information_blocks mergeFinalize
  intro x hx
  split at hx
  next acc heq => exact h2 x (by rw [heq]; exact hx)
  next cur acc heq =>
    rw [heq] at h2 h3
    cases acc with
    | nil => simp at hx
    | cons a t =>
      simp only [List.cons_append, List.tail_cons] at hx
      rcases List.mem_append.mp hx with hx | hx
      · exact h2 x hx
      · rw [List.mem_singleton.mp hx]
        exact h3 cur rfl (by simp)

lemma getD_succ_mem_tail {α : Type} (l : List α) (d : α) (i : Nat)
    (h : i + 1 < l.length) : l.getD (i + 1) d ∈ l.tail := by
  cases l with
  | nil => simp at h
  | cons a t =>
    have ht : i < t.length := by simpa using h
    simp only [List.getD_cons_succ, List.tail_cons]
    rw [List.getD_eq_getElem t d ht]
    exact List.getElem_mem ht

/-- C5: the merger never emits two consecutive records that both lack a
session value. -/
theorem merge_no_consecutive_sessionless (blocks : List Article) (i : Nat)
    (h : i + 1 < (merge_information_blocks blocks).length) :
    ¬(((merge_information_blocks blocks).getD i emptyArticle).session = "" ∧
      ((merge_information_blocks blocks).getD (i + 1) emptyArticle).session = "") := by
  rintro ⟨-, h2⟩
  exact merge_tail_session blocks _ (getD_succ_mem_tail _ _ _ h) h2

/-- Witness for C5 at a concrete two-session input. -/
theorem merge_no_consecutive_sessionless_witness :
    0 + 1 < (merge_information_blocks
      [{ emptyArticle with session := "A" }, { emptyArticle with session := "B" }]).length ∧
    ¬(((merge_information_blocks
        [{ emptyArticle with session := "A" }, { emptyArticle with session := "B" }]).getD 0
          emptyArticle).session = "" ∧
      ((merge_information_blocks
        [{ emptyArticle with session := "A" }, { emptyArticle with session := "B" }]).getD (0 + 1)
          emptyArticle).session = "") :=
  ⟨by decide, merge_no_consecutive_sessionless _ 0 (by decide)⟩

/-- A non-empty accumulator factors out of the fold of the merger. -/
lemma merge_fold_shift (xs : List Article) :
    ∀ (cur : Article) (acc : List Article),
      mergeFinalize (xs.foldl mergeStep (some cur, acc)) =
        acc ++ mergeFinalize (xs.foldl mergeStep (some cur, [])) := by
  induction xs with
  | nil => intro cur acc; simp [mergeFinalize]
  | cons x xs ih =>
    intro cur acc
    by_cases hx : x.session = ""
    · have hstep : ∀ a : List Article, mergeStep (some cur, a) x = (some (mergeFields cur x), a) := by
        intro a; simp [mergeStep, hx]
      simp only [List.foldl_cons, hstep]
      exact ih (mergeFields cur x) acc
    · have hstep : ∀ a : List Article, mergeStep (some cur, a) x = (some x, a ++ [cur]) := by
        intro a; simp [mergeStep, hx]
      simp only [List.foldl_cons, hstep]
      rw [ih x (acc ++ [cur]), ih x ([] ++ [cur])]
      simp

/-- The fold of the merger from an open block agrees with the run-by-run
specification. -/
lemma merge_fold_runs (xs : List Article) :
    ∀ b : Article,
      mergeFinalize (xs.foldl mergeStep (some b, [])) = mergeRunsSpec (b :: xs) := by
  induction xs with
  | nil => intro b; simp [mergeFinalize, mergeRunsSpec, coalesceRun]
  | cons x xs ih =>
    intro b
    by_cases hx : x.session = ""
    · have hstep : mergeStep (some b, []) x = (some (mergeFields b x), []) := by
        simp [mergeStep, hx]
      simp only [List.foldl_cons, hstep, ih (mergeFields b x)]
      rw [mergeRunsSpec, mergeRunsSpec]
      simp only [List.takeWhile_cons, List.dropWhile_cons, hx]
      simp [coalesceRun]
    · have hstep : mergeStep (some b, []) x = (some x, [] ++ [b]) := by
        simp [mergeStep, hx]
      simp only [List.foldl_cons, hstep]
      rw [merge_fold_shift xs x ([] ++ [b]), ih x]
      conv_rhs => rw [mergeRunsSpec]
      simp only [List.takeWhile_cons, List.dropWhile_cons, hx]
      simp [coalesceRun]

/-- The merger is the run-by-run regrouping. -/
lemma merge_eq_mergeRunsSpec (blocks : List Article) :
    merge_information_blocks blocks = mergeRunsSpec blocks := by
  cases blocks with
  | nil => rw [mergeRunsSpec]; rfl
  | cons b rest =>
    unfold merge_information_blocks
    simp only [List.foldl_cons]
    have hstep : mergeStep (none, []) b = (some b, []) := rfl
    rw [hstep]
    exact merge_fold_runs rest b

lemma length_dropWhile_le {α : Type} (p : α → Bool) (l : List α) :
    (l.dropWhile p).length ≤ l.length := by
  induction l with
  | nil => simp
  | cons a t ih =>
    rw [List.dropWhile_cons]
    split
    · exact le_trans ih (Nat.le_succ _)
    · simp

/-- Length of the run-by-run regrouping: one output per session record,
plus one for a leading session-less record. -/
lemma mergeRunsSpec_length_aux : ∀ (n : Nat) (blocks : List Article), blocks.length = n →
    (mergeRunsSpec blocks).length =
      List.countP (fun b => b.session != "") blocks + leadingBonus blocks := by
  intro n
  induction n using Nat.strong_induction_on with
  | _ n ih =>
  intro blocks hn
  cases blocks with
  | nil => simp [mergeRunsSpec, leadingBonus]
  | cons b rest =>
    rw [mergeRunsSpec]
    have hdw : (rest.dropWhile fun x => x.session = "").length ≤ rest.length :=
      length_dropWhile_le _ rest
    have hlt : (rest.dropWhile fun x => x.session = "").length < n := by
      rw [← hn]; simpa using Nat.lt_succ_of_le hdw
    have hrec := ih _ hlt (rest.dropWhile fun x => x.session = "") rfl
    have hbonus : leadingBonus (rest.dropWhile fun x => x.session = "") = 0 := by
      cases hD : rest.dropWhile fun x => x.session = "" with
      | nil => simp [leadingBonus]
      | cons c t =>
        have := List.head?_dropWhile_not (fun x => decide (x.session = "")) rest
        rw [hD] at this
        simp only [List.head?_cons] at this
        simp only [leadingBonus]
        rw [if_neg (by simpa using this)]
    have hcount : List.countP (fun b => b.session != "") rest =
        List.countP (fun b => b.session != "") (rest.dropWhile fun x => x.session = "") := by
      conv_lhs => rw [← List.takeWhile_append_dropWhile (fun x => decide (x.session = "")) rest]
      rw [List.countP_append]
      have : List.countP (fun b => b.session != "")
          (rest.takeWhile fun x => x.session = "") = 0 := by
        rw [List.countP_eq_zero]
        intro a ha
        have := List.mem_takeWhile_imp ha
        simpa using of_decide_eq_true this
      omega
    simp only [List.length_cons, hrec, hbonus, List.countP_cons, hcount]
    by_cases hb : b.session = "" <;> simp [leadingBonus, hb]

/-- C6 counterexample: on a single record lacking a session the merger
returns one block although the input holds no record with a non-empty
session, so the output is not one merged record per session record. -/
theorem merge_counts_counterexample :
    ¬((merge_information_blocks [{ emptyArticle with title := "x" }]).length =
      List.countP (fun b => b.session != "")
        [{ emptyArticle with title := "x" }]) := by decide

/-- C6 amended: the merger regroups its input run by run (coalescing each
maximal run of session-less records into the block opened by the last
preceding record, a new block starting at every record with a non-empty
session), and its output length is the number of session records plus one
extra leading block exactly when the input starts with a session-less
record. -/
theorem merge_blocks_runs (blocks : List Article) :
    merge_information_blocks blocks = mergeRunsSpec blocks ∧
    (merge_information_blocks blocks).length =
      List.countP (fun b => b.session != "") blocks + leadingBonus blocks := by
  refine ⟨merge_eq_mergeRunsSpec blocks, ?_⟩
  rw [merge_eq_mergeRunsSpec blocks]
  exact mergeRunsSpec_length_aux blocks.length blocks rfl

/-! ### Writer invariants -/

lemma saveAuthorsStep_inv (session title abstract : String) (affs : List String)
    {sheet0 : List Row} {st : List (String × String) × List Row}
    (h : SaveInv sheet0 st) (author : String) :
    SaveInv sheet0 (saveAuthorsStep session title abstract affs st author) := by
  obtain ⟨app, h1, h2, h3⟩ := h
  show SaveInv sheet0
    (if (session, stripAuthor author) ∈ st.1 then st
     else ((session, stripAuthor author) :: st.1,
       st.2 ++ [{ name := stripAuthor author
                  affiliations := String.intercalate ", " affs
                  session := session
                  location := ""
                  title := title
                  abstract := abstract }]))
  split
  next hmem => exact ⟨app, h1, h2, h3⟩
  next hmem =>
    refine ⟨app ++ [{ name := stripAuthor author
                      affiliations := String.intercalate ", " affs
                      session := session
                      location := ""
                      title := title
                      abstract := abstract }], ?_, ?_, ?_⟩
    · simp only [h1, List.append_assoc]
    · intro r hr
      rcases List.mem_append.mp hr with hr | hr
      · exact List.mem_cons_of_mem _ (h2 r hr)
      · rw [List.mem_singleton.mp hr]
        exact List.mem_cons_self _ _
    · rw [List.pairwise_append]
      refine ⟨h3, List.pairwise_singleton _ _, ?_⟩
      intro r hr r2 hr2
      rw [List.mem_singleton.mp hr2]
      rintro ⟨hs, hn⟩
      apply hmem
      have hmem2 := h2 r hr
      rw [hs, hn] at hmem2
      exact hmem2

lemma saveAuthors_fold_inv (session title abstract : String) (affs : List String)
    {sheet0 : List Row} (authors : List String) :
    ∀ {st : List (String × String) × List Row}, SaveInv sheet0 st →
      SaveInv sheet0 (authors.foldl (saveAuthorsStep session title abstract affs) st) := by
  induction authors with
  | nil => intro st h; exact h
  | cons a rest ih =>
    intro st h
    exact ih (saveAuthorsStep_inv session title abstract affs h a)

lemma saveBlockStep_inv {sheet0 : List Row} {st : List (String × String) × List Row}
    (h : SaveInv sheet0 st) (block : Article) :
    SaveInv sheet0 (saveBlockStep st block) := by
  unfold saveBlockStep
  split
  · exact h
  · exact saveAuthors_fold_inv _ _ _ _ block.authors h

lemma save_fold_inv {sheet0 : List Row} (blocks : List Article) :
    ∀ {st : List (String × String) × List Row}, SaveInv sheet0 st →
      SaveInv sheet0 (blocks.foldl saveBlockStep st) := by
  induction blocks with
  | nil => intro st h; exact h
  | cons b rest ih =>
    intro st h
    exact ih (saveBlockStep_inv h b)

/-- C4: within one writer call, no two appended rows share the same
(session, author) pair. -/
theorem save_rows_unique (blocks : List Article) (file : Option (List Row)) :
    ((save_to_excel_file blocks file).drop (initialSheet file).length).Pairwise
      (fun r1 r2 => ¬(r1.session = r2.session ∧ r1.name = r2.name)) := by
  have h0 : SaveInv (initialSheet file) ([], initialSheet file) :=
    ⟨[], by simp, by simp, List.Pairwise.nil⟩
  obtain ⟨app, ha, -, hp⟩ := save_fold_inv blocks h0
  unfold save_to_excel_file
  rw [ha, List.drop_left]
  exact hp

/-- C7: run against an absent file, the writer first creates a sheet
whose first row holds the six fixed headers. -/
theorem save_creates_header_row (blocks : List Article) :
    (save_to_excel_file blocks none).head? =
      some { name := "Name (incl, titles if any mentioned"
             affiliations := "Affiliations"
             session := "Session name"
             location := "Persons Location"
             title := "Topic Title"
             abstract := "Presentation Abstract" } := by
  have h0 : SaveInv (initialSheet none) ([], initialSheet none) :=
    ⟨[], by simp, by simp, List.Pairwise.nil⟩
  obtain ⟨app, ha, -, -⟩ := save_fold_inv blocks h0
  unfold save_to_excel_file
  rw [ha]
  rfl

/-- C8 counterexample: the guard `session and tuple(authors) in
existing_authors` does fire. After a block with session "S" and author
"A" the set holds the pair ("S", "A"); a following block whose author
list is exactly ["S", "A"] is then skipped wholesale, so its fresh
(session, author) pairs produce no rows. -/
theorem skip_guard_fires :
    ([{ authors := ["A"], affiliations := [], session := "S", title := "T1",
        abstract := "Ab1" }].foldl saveBlockStep ([], ([] : List Row))).1 = [("S", "A")] ∧
    skipBlockCond [("S", "A")]
      { authors := ["S", "A"], affiliations := [], session := "X", title := "T2",
        abstract := "Ab2" } = true ∧
    save_to_excel_file
      [{ authors := ["A"], affiliations := [], session := "S", title := "T1",
         abstract := "Ab1" },
       { authors := ["S", "A"], affiliations := [], session := "X", title := "T2",
         abstract := "Ab2" }] (some []) =
      [{ name := "A", affiliations := "", session := "S", location := "", title := "T1",
         abstract := "Ab1" }] := by decide

/-- C8 amended: the skip guard evaluates to true exactly when the session of the block is non-empty and its author list is exactly a two-element list
matching a previously recorded (session, author) pair; in particular it
is dead code for every block whose author count differs from two. -/
theorem skip_guard_characterization (existing : List (String × String)) (block : Article) :
    skipBlockCond existing block = true ↔
      block.session ≠ "" ∧ ∃ a b, block.authors = [a, b] ∧ (a, b) ∈ existing := by
  unfold skipBlockCond authorsTupleMem
  rcases hA : block.authors with _ | ⟨a, _ | ⟨b, _ | ⟨c, t⟩⟩⟩ <;>
    simp [hA, Bool.and_eq_true, bne_iff_ne]
  intro
  constructor
  · intro hm
    exact ⟨a, b, ⟨rfl, rfl⟩, hm⟩
  · rintro ⟨a2, b2, ⟨rfl, rfl⟩, hm⟩
    exact hm

/-- C10: the writer strips the first two characters of an author name
that starts with a comma (whatever its second character is) before
writing the row, and writes other author names unchanged. -/
theorem strip_leading_comma (a session title abstract : String) (affs : List String) :
    (startsWithComma a = true →
      save_to_excel_file
          [{ authors := [a], affiliations := affs, session := session,
             title := title, abstract := abstract }] (some []) =
        [{ name := dropTwoChars a, affiliations := String.intercalate ", " affs,
           session := session, location := "", title := title, abstract := abstract }]) ∧
    (startsWithComma a = false →
      save_to_excel_file
          [{ authors := [a], affiliations := affs, session := session,
             title := title, abstract := abstract }] (some []) =
        [{ name := a, affiliations := String.intercalate ", " affs,
           session := session, location := "", title := title, abstract := abstract }]) := by
  constructor <;> intro h <;>
    simp [save_to_excel_file, initialSheet, saveBlockStep, skipBlockCond, authorsTupleMem,
      saveAuthorsStep, stripAuthor, h]

/-- Witness for C10 at the author string ",Xy", whose second character is
not a space: the first two characters are removed nevertheless. -/
theorem strip_leading_comma_witness :
    startsWithComma ",Xy" = true ∧
    save_to_excel_file
        [{ authors := [",Xy"], affiliations := [], session := "S",
           title := "T", abstract := "A" }] (some []) =
      [{ name := dropTwoChars ",Xy", affiliations := String.intercalate ", " ([] : List String),
         session := "S", location := "", title := "T", abstract := "A" }] :=
  ⟨by decide, (strip_leading_comma ",Xy" "S" "T" "A" []).1 (by decide)⟩

/-! ### Span classification -/

lemma processSpan_none {s : Span} (h : classifySpan s = none) (art : Article) :
    processSpan art s = art := by
  unfold processSpan
  rw [h]

/-- C2 counterexample: a span whose font name matches none of the
three font-name constants of the program is still assigned the abstract role,
because the abstract rule tests the size only. -/
theorem classify_font_mismatch :
    classifySpan { font := "Arial", size := FONT_SIZE_ABSTRACT, text := "t" } =
      some Role.abstract ∧
    "Arial" ≠ "TimesNewRomanPS-BoldItal" ∧ "Arial" ≠ "TimesNewRomanPS-BoldMT" ∧
    "Arial" ≠ "TimesNewRomanPS-ItalicMT" := by decide

/-- C2 amended: the session, title, authors and affiliations roles are
assigned by exact match of font name and font size; the abstract role is
assigned by exact match of the font size alone; the five rules are
mutually exclusive, and a span matching none of them leaves the record
unchanged. -/
theorem classify_rules (s : Span) :
    (classifySpan s = some Role.paragraph ↔
      s.font = "TimesNewRomanPS-BoldItal" ∧ s.size = FONT_SIZE_PARAGRAPH) ∧
    (classifySpan s = some Role.title ↔
      s.font = "TimesNewRomanPS-BoldMT" ∧ s.size = FONT_SIZE_TITLE) ∧
    (classifySpan s = some Role.authors ↔
      s.font = "TimesNewRomanPS-ItalicMT" ∧ s.size = FONT_SIZE_AUTHORS) ∧
    (classifySpan s = some Role.affiliations ↔
      s.font = "TimesNewRomanPS-ItalicMT" ∧ s.size = FONT_SIZE_AFFILIATIONS) ∧
    (classifySpan s = some Role.abstract ↔ s.size = FONT_SIZE_ABSTRACT) ∧
    (classifySpan s = none → ∀ art : Article, processSpan art s = art) := by
  have dF1 : ("TimesNewRomanPS-BoldItal" : String) ≠ "TimesNewRomanPS-BoldMT" := by decide
  have dF2 : ("TimesNewRomanPS-BoldItal" : String) ≠ "TimesNewRomanPS-ItalicMT" := by decide
  have dF3 : ("TimesNewRomanPS-BoldMT" : String) ≠ "TimesNewRomanPS-BoldItal" := by decide
  have dF4 : ("TimesNewRomanPS-BoldMT" : String) ≠ "TimesNewRomanPS-ItalicMT" := by decide
  have dF5 : ("TimesNewRomanPS-ItalicMT" : String) ≠ "TimesNewRomanPS-BoldItal" := by decide
  have dF6 : ("TimesNewRomanPS-ItalicMT" : String) ≠ "TimesNewRomanPS-BoldMT" := by decide
  have dS1 : FONT_SIZE_PARAGRAPH ≠ FONT_SIZE_TITLE := by decide
  have dS2 : FONT_SIZE_PARAGRAPH ≠ FONT_SIZE_AFFILIATIONS := by decide
  have dS3 : FONT_SIZE_PARAGRAPH ≠ FONT_SIZE_ABSTRACT := by decide
  have dS4 : FONT_SIZE_TITLE ≠ FONT_SIZE_AFFILIATIONS := by decide
  have dS5 : FONT_SIZE_TITLE ≠ FONT_SIZE_ABSTRACT := by decide
  have dS6 : FONT_SIZE_AUTHORS ≠ FONT_SIZE_AFFILIATIONS := by decide
  have dS7 : FONT_SIZE_AUTHORS ≠ FONT_SIZE_ABSTRACT := by decide
  have dS8 : FONT_SIZE_AFFILIATIONS ≠ FONT_SIZE_ABSTRACT := by decide
  have dS9 : FONT_SIZE_ABSTRACT ≠ FONT_SIZE_PARAGRAPH := by decide
  have dS10 : FONT_SIZE_ABSTRACT ≠ FONT_SIZE_TITLE := by decide
  have dS11 : FONT_SIZE_ABSTRACT ≠ FONT_SIZE_AUTHORS := by decide
  have dS12 : FONT_SIZE_ABSTRACT ≠ FONT_SIZE_AFFILIATIONS := by decide
  have dS13 : FONT_SIZE_AFFILIATIONS ≠ FONT_SIZE_AUTHORS := by decide
  refine ⟨?_, ?_, ?_, ?_, ?_, fun h art => processSpan_none h art⟩ <;>
    (unfold classifySpan
     split_ifs with h1 h2 h3 h4 h5 <;>
       simp_all)

/-- Witness for C2 amended at a session-paragraph span. -/
theorem classify_rules_witness :
    classifySpan { font := "TimesNewRomanPS-BoldItal", size := FONT_SIZE_PARAGRAPH,
                   text := "s" } = some Role.paragraph :=
  (classify_rules { font := "TimesNewRomanPS-BoldItal", size := FONT_SIZE_PARAGRAPH,
                    text := "s" }).1.mpr ⟨rfl, rfl⟩

/-! ### Extractor continuation behavior -/

/-- C3 counterexample: on `pdfContinuation` the third block is a
continuation (empty session, non-empty title) and record 0 was the
previously yielded record, yet the extractor merges into the unyielded
empty record of block two: it yields a fresh record id 1 (starting a new
record) and leaves the title of the previously yielded record untouched. -/
theorem continuation_merges_into_unyielded :
    extractedArticles pdfContinuation 1 =
      [{ authors := [], affiliations := [], session := "S1", title := "T1", abstract := "" },
       { authors := [], affiliations := [], session := "", title := "X", abstract := "" }] ∧
    (extract_information_from_pdf pdfContinuation 1).yields = [0, 1] ∧
    ¬(((extract_information_from_pdf pdfContinuation 1).store.getD 0 emptyArticle).title =
        "T1" ++ "X") := by decide

/-- C3 amended: a non-empty continuation block merges (by appending,
never replacing) into the record of the immediately preceding block —
`previous_article`, which is the previously yielded record only when that
preceding block was itself yielded — and the id of the merged record is
yielded in place of a fresh one. -/
theorem continuation_merges_into_previous_block (st : ExtractState) (b : Block) (pid : Nat)
    (h1 : b.type = 0) (h2 : (buildArticle b).session = "")
    (h3 : articleNonEmpty (buildArticle b) = true)
    (h4 : st.previous = some pid) (h5 : pid < st.store.length) :
    (processBlock st b).yields = st.yields ++ [pid] ∧
    (processBlock st b).previous = some pid ∧
    (processBlock st b).store =
      (st.store ++ [buildArticle b]).set pid
        (mergeFields (st.store.getD pid emptyArticle) (buildArticle b)) := by
  have hg : (st.store ++ [buildArticle b])[pid]? = st.store[pid]? :=
    List.getElem?_append_left h5
  simp [processBlock, h1, h2, h3, h4, List.getD, hg]

/-- Witness for C3 amended at a concrete state and block. -/
theorem continuation_merges_into_previous_block_witness :
    (processBlock prevState contBlock).yields = prevState.yields ++ [0] ∧
    (processBlock prevState contBlock).previous = some 0 ∧
    (processBlock prevState contBlock).store =
      (prevState.store ++ [buildArticle contBlock]).set 0
        (mergeFields (prevState.store.getD 0 emptyArticle) (buildArticle contBlock)) :=
  continuation_merges_into_previous_block prevState contBlock 0 rfl (by decide) (by decide)
    rfl (by decide)

/-- C9: a non-empty continuation block arriving while `previous_article`
is an already-yielded record makes the extractor yield the id of that record
again, so the yield sequence holds the same record (the same mutable
dictionary) twice. -/
theorem continuation_repeats_previous_yield (st : ExtractState) (b : Block) (pid : Nat)
    (h1 : b.type = 0) (h2 : (buildArticle b).session = "")
    (h3 : articleNonEmpty (buildArticle b) = true)
    (h4 : st.previous = some pid) (h6 : pid ∈ st.yields) :
    (processBlock st b).yields = st.yields ++ [pid] ∧
    ¬(processBlock st b).yields.Nodup := by
  have hy : (processBlock st b).yields = st.yields ++ [pid] := by
    simp [processBlock, h1, h2, h3, h4]
  refine ⟨hy, ?_⟩
  rw [hy]
  intro hnd
  rw [List.nodup_append] at hnd
  exact hnd.2.2 h6 (List.mem_singleton.mpr rfl)

/-- Witness for C9 at a concrete state and block. -/
theorem continuation_repeats_previous_yield_witness :
    (processBlock prevState contBlock).yields = prevState.yields ++ [0] ∧
    ¬(processBlock prevState contBlock).yields.Nodup :=
  continuation_repeats_previous_yield prevState contBlock 0 rfl (by decide) (by decide)
    rfl (by decide)

/-! ### End to end -/

/-- C1 evaluation: extraction yields exactly the one expected record and
a single writer call on an absent file adds exactly one data row; the
entry point of the program, however, calls the writer twice (`main.py` lines
185 and 199) with a per-call duplicate set, so the saved sheet gains the
data row twice. -/
theorem end_to_end_two_page :
    extractedArticles twoPagePdf 1 =
      [{ authors := ["Dr. X"], affiliations := [], session := "Session 1",
         title := "Talk A", abstract := "" }] ∧
    save_to_excel_file (merge_information_blocks (extractedArticles twoPagePdf 1)) none =
      create_excel_file_with_headers ++
        [{ name := "Dr. X", affiliations := "", session := "Session 1", location := "",
           title := "Talk A", abstract := "" }] ∧
    main_run twoPagePdf 1 none =
      create_excel_file_with_headers ++
        [{ name := "Dr. X", affiliations := "", session := "Session 1", location := "",
           title := "Talk A", abstract := "" },
         { name := "Dr. X", affiliations := "", session := "Session 1", location := "",
           title := "Talk A", abstract := "" }] := by decide

end MainPy
